import Mathlib

/-!
Verification development for TagLib::String (src/taglib/toolkit/tstring.h).

The repository ships only the class header (declarations and documentation);
the member-function bodies live in tstring.cpp, which is not part of the
source excerpt.  Every operation below is therefore modelled from the spec
(spec.md), faithful to its words, and each definition's doc comment records
what is missing.

Strings are handles onto reference-counted shared buffers of UTF-16 code
units (spec sections 3 and 4.2).  We model the heap of buffers explicitly:
a `Store` maps buffer ids to `Buffer`s, and a `StringH` is a handle holding
a buffer id.  Code units and bytes are `Nat`s (units < 2^16, bytes < 2^8
wherever the operations produce them).
-/

/-- Modelled from the spec (section 3, "Buffer"); the concrete
`String::StringPrivate` in tstring.cpp is missing from the excerpt.
A shared buffer: an ordered sequence of UTF-16 code units, a share count,
and the null-sentinel marker distinguishing "no string" from "string of
length zero". -/
structure Buffer where
  data : List Nat
  refs : Nat
  null : Bool

/-- Modelled from the spec (section 3): the heap of shared buffers.  Ids at
or above `next` are unallocated. -/
structure Store where
  bufs : Nat → Buffer
  next : Nat

/-- A `TagLib::String` handle: a reference to a shared buffer
(`RefCountPtr<StringPrivate> d` in tstring.h). -/
structure StringH where
  bufId : Nat

/-- The buffer a handle refers to. -/
def getBuf (st : Store) (h : StringH) : Buffer :=
  st.bufs h.bufId

/-- Replace the buffer stored at id `i`. -/
def setBuf (st : Store) (i : Nat) (b : Buffer) : Store :=
  ⟨fun j => if j = i then b else st.bufs j, st.next⟩

/-- Allocate a fresh buffer and return a handle to it. -/
def alloc (st : Store) (b : Buffer) : Store × StringH :=
  (⟨fun j => if j = st.next then b else st.bufs j, st.next + 1⟩, ⟨st.next⟩)

/-- The observed content of a handle: its buffer's code-unit sequence. -/
def contentOf (st : Store) (h : StringH) : List Nat :=
  (getBuf st h).data

/-- Modelled from the spec (section 4.3, `size()`); tstring.cpp is missing.
Number of UTF-16 code units. -/
def sizeStr (st : Store) (h : StringH) : Nat :=
  (contentOf st h).length

/-- Modelled from the spec (section 4.3, `length()`, "Equivalent to
size()"); tstring.cpp is missing. -/
def lengthStr (st : Store) (h : StringH) : Nat :=
  (contentOf st h).length

/-- Modelled from the spec (section 3): `isEmpty()` reports length zero. -/
def isEmptyStr (st : Store) (h : StringH) : Bool :=
  (contentOf st h).length = 0

/-- Modelled from the spec (section 3): only the distinguished null
sentinel buffer reports "is null". -/
def isNullStr (st : Store) (h : StringH) : Bool :=
  (getBuf st h).null

/-- Modelled from the spec: `operator==` compares the code-unit
sequences. -/
def stringEq (st : Store) (a b : StringH) : Bool :=
  contentOf st a == contentOf st b

/-- Modelled from the spec (`String()`, tstring.h line 113): constructs the
null/empty sentinel — empty, and reporting `isNull`. -/
def mkEmpty (st : Store) : Store × StringH :=
  alloc st ⟨[], 1, true⟩

/-- Modelled from the spec (section 4.2, copy construction / copy
assignment; tstring.h lines 120 and 404): increments the source buffer's
share count and shares the same reference; no character data copied, no
allocation. -/
def copyString (st : Store) (s : StringH) : Store × StringH :=
  let b := getBuf st s
  (setBuf st s.bufId { b with refs := b.refs + 1 }, ⟨s.bufId⟩)

/-- Modelled from the spec (section 4.2, `detach()`; declared tstring.h
line 488, body in the missing tstring.cpp): if the share count is already
1 this is a no-op; otherwise allocate a new buffer with a copy of the
code-unit sequence, point the handle at it, and decrement the old buffer's
share count. -/
def detach (st : Store) (s : StringH) : Store × StringH :=
  let b := getBuf st s
  if b.refs ≤ 1 then (st, s)
  else
    let st1 := setBuf st s.bufId { b with refs := b.refs - 1 }
    alloc st1 ⟨b.data, 1, b.null⟩

/-- Modelled from the spec (section 4.2/4.3, `append` and `operator+=`;
declared tstring.h line 270): read the appended string's units, detach,
then grow the now-exclusive buffer. -/
def appendStr (st : Store) (s t : StringH) : Store × StringH :=
  let tdata := contentOf st t
  let p := detach st s
  let b1 := getBuf p.1 p.2
  (setBuf p.1 p.2.bufId { b1 with data := b1.data ++ tdata }, p.2)

/-- An initial empty heap, for concrete witnesses. -/
def emptyStore : Store :=
  ⟨fun _ => ⟨[], 0, true⟩, 0⟩

/-! ## Encoding codec (spec section 4.1)

tstring.cpp's conversion routines (`copyFromLatin1`, `copyFromUTF8`,
`copyFromUTF16`, and the export path of `to8Bit`/`toCString`) are missing
from the excerpt; they are modelled from the spec below.  Scalars are
Unicode scalar values; bytes are `Nat`s below 0x100. -/

/-- A UTF-16 high (leading) surrogate code unit. -/
def isHighSurrogate (u : Nat) : Bool :=
  decide (0xD800 ≤ u) && decide (u ≤ 0xDBFF)

/-- A UTF-16 low (trailing) surrogate code unit. -/
def isLowSurrogate (u : Nat) : Bool :=
  decide (0xDC00 ≤ u) && decide (u ≤ 0xDFFF)

/-- A UTF-8 continuation byte (10xxxxxx). -/
def isCont (b : Nat) : Bool :=
  decide (0x80 ≤ b) && decide (b < 0xC0)

/-- Well-formed UTF-16: every unit is 16-bit, every high surrogate is
followed by a low surrogate, and no surrogate appears otherwise. -/
def wfUTF16 : List Nat → Bool
  | [] => true
  | [u] => decide (u < 0x10000) && !isHighSurrogate u && !isLowSurrogate u
  | u :: v :: rest =>
    if isHighSurrogate u then isLowSurrogate v && wfUTF16 rest
    else (decide (u < 0x10000) && !isLowSurrogate u) && wfUTF16 (v :: rest)

/-- Modelled from the spec (section 4.1, decode/encode boundary): read a
UTF-16 code-unit sequence into Unicode scalar values, combining surrogate
pairs; an unpaired surrogate yields the replacement scalar 0xFFFD. -/
def utf16ToScalars : List Nat → List Nat
  | [] => []
  | [u] => if isHighSurrogate u || isLowSurrogate u then [0xFFFD] else [u]
  | u :: v :: rest =>
    if isHighSurrogate u then
      if isLowSurrogate v then
        (0x10000 + (u - 0xD800) * 0x400 + (v - 0xDC00)) :: utf16ToScalars rest
      else 0xFFFD :: utf16ToScalars (v :: rest)
    else if isLowSurrogate u then 0xFFFD :: utf16ToScalars (v :: rest)
    else u :: utf16ToScalars (v :: rest)

/-- A scalar as UTF-16 code units: one unit below 0x10000, otherwise a
surrogate pair (spec section 4.1, "UTF-8 → UTF-16"). -/
def scalarToUTF16 (c : Nat) : List Nat :=
  if c < 0x10000 then [c]
  else [0xD800 + (c - 0x10000) / 0x400, 0xDC00 + (c - 0x10000) % 0x400]

/-- A scalar sequence as a UTF-16 code-unit sequence. -/
def scalarsToUTF16 : List Nat → List Nat
  | [] => []
  | c :: cs => scalarToUTF16 c ++ scalarsToUTF16 cs

/-- Standard UTF-8 encoding of one scalar (1 to 4 bytes by range). -/
def utf8EncodeScalar (c : Nat) : List Nat :=
  if c < 0x80 then [c]
  else if c < 0x800 then [0xC0 + c / 0x40, 0x80 + c % 0x40]
  else if c < 0x10000 then
    [0xE0 + c / 0x1000, 0x80 + (c / 0x40) % 0x40, 0x80 + c % 0x40]
  else
    [0xF0 + c / 0x40000, 0x80 + (c / 0x1000) % 0x40,
     0x80 + (c / 0x40) % 0x40, 0x80 + c % 0x40]

/-- Modelled from the spec (section 4.1, "To UTF8: standard multi-byte
encode, combining surrogate pairs"): byte sequence of a scalar sequence. -/
def scalarsToUTF8 : List Nat → List Nat
  | [] => []
  | c :: cs => utf8EncodeScalar c ++ scalarsToUTF8 cs

/-- Fuel-driven UTF-8 decoding scan (one fuel unit per decoded scalar;
each scalar consumes at least one byte, so `s.length` fuel always
suffices).  Standard multi-byte decode by lead-byte range; a malformed
byte sequence yields the replacement scalar 0xFFFD and the scan stops
(the claims below only concern well-formed encodings). -/
def utf8DecGo : Nat → List Nat → List Nat
  | _, [] => []
  | 0, _ :: _ => [0xFFFD]
  | fuel + 1, b :: bs =>
    if b < 0x80 then b :: utf8DecGo fuel bs
    else if b < 0xC2 then 0xFFFD :: utf8DecGo fuel bs
    else if b < 0xE0 then
      match bs with
      | b1 :: bs1 =>
        if isCont b1 then
          ((b - 0xC0) * 0x40 + (b1 - 0x80)) :: utf8DecGo fuel bs1
        else [0xFFFD]
      | [] => [0xFFFD]
    else if b < 0xF0 then
      match bs with
      | b1 :: b2 :: bs2 =>
        if isCont b1 && isCont b2 then
          ((b - 0xE0) * 0x1000 + (b1 - 0x80) * 0x40 + (b2 - 0x80))
            :: utf8DecGo fuel bs2
        else [0xFFFD]
      | _ => [0xFFFD]
    else if b < 0xF5 then
      match bs with
      | b1 :: b2 :: b3 :: bs3 =>
        if isCont b1 && isCont b2 && isCont b3 then
          ((b - 0xF0) * 0x40000 + (b1 - 0x80) * 0x1000
            + (b2 - 0x80) * 0x40 + (b3 - 0x80)) :: utf8DecGo fuel bs3
        else [0xFFFD]
      | _ => [0xFFFD]
    else 0xFFFD :: utf8DecGo fuel bs

/-- Modelled from the spec (section 4.1, "UTF-8 → UTF-16: standard
multi-byte decode"): read a UTF-8 byte sequence into scalar values. -/
def utf8DecScalars (s : List Nat) : List Nat :=
  utf8DecGo s.length s

/-- Modelled from the spec (section 4.1, "Latin1 → UTF-16: each input byte
is a Latin-1 code point; zero-extend to one UTF-16 unit"); declared
tstring.h line 495, body missing. -/
def copyFromLatin1 (s : List Nat) : List Nat :=
  s.map (fun b => b % 0x100)

/-- Modelled from the spec (section 4.1); declared tstring.h line 501,
body missing.  UTF-8 decode into internal UTF-16. -/
def copyFromUTF8 (s : List Nat) : List Nat :=
  scalarsToUTF16 (utf8DecScalars s)

/-- Modelled from the spec (section 4.1, encode path of
`to8Bit`/`toCString`, tstring.h lines 191 and 213, bodies missing):
Latin-1 export is total — each unit above 0xFF becomes the fixed
replacement byte 0x3F, the code of the documented example value. -/
def encodeLatin1 : List Nat → List Nat
  | [] => []
  | u :: us => (if u ≤ 0xFF then u else 0x3F) :: encodeLatin1 us

/-- Modelled from the spec: UTF-8 export of the internal sequence. -/
def encodeUTF8 (s : List Nat) : List Nat :=
  scalarsToUTF8 (utf16ToScalars s)

/-- Modelled from the spec (`to8Bit(unicode)`, tstring.h line 191, body
missing): Latin-1 bytes when `unicode` is false, UTF-8 bytes when true. -/
def to8BitData (data : List Nat) (unicode : Bool) : List Nat :=
  if unicode then encodeUTF8 data else encodeLatin1 data

/-- `to8Bit` on a handle. -/
def to8Bit (st : Store) (h : StringH) (unicode : Bool) : List Nat :=
  to8BitData (contentOf st h) unicode

/-! ## Constructors with declared encodings (tstring.h lines 139-179) -/

/-- The encoding tags of `String::Type` (tstring.h lines 87-108; `Type` is
reserved in Lean, hence the `T` prefix).  Constructor order follows the
enum values Latin1 = 0, UTF16 = 1, UTF16BE = 2, UTF8 = 3, UTF16LE = 4. -/
inductive TType where
  | Latin1
  | UTF16
  | UTF16BE
  | UTF8
  | UTF16LE
deriving DecidableEq

/-- Swap the two bytes of a 16-bit unit. -/
def swap16 (u : Nat) : Nat :=
  (u % 0x100) * 0x100 + (u / 0x100) % 0x100

/-- Modelled from the spec (section 4.1, UTF-16 decode; declared tstring.h
lines 507 and 513, bodies missing): internal order is big-endian (header
line 62); with a BOM the order is detected and the BOM stripped, with a
declared order the units are byte-swapped when that order differs. -/
def copyFromUTF16 (s : List Nat) (t : TType) : List Nat :=
  match t with
  | TType.UTF16 =>
    match s with
    | 0xFEFF :: rest => rest
    | 0xFFFE :: rest => rest.map swap16
    | _ => s
  | TType.UTF16LE => s.map swap16
  | _ => s

/-- Modelled from the spec (section 4.1 and section 7): construction from
an 8-bit source (`std::string`, `const char *`, `char`, `ByteVector`;
tstring.h lines 139, 157, 171, 179) with a declared `Type`.  The 8-bit
codecs Latin1 and UTF8 decode; a 16-bit-only `Type` is a contract
violation and aborts construction ("print a warning and exit" in the
header docs), modelled as `none`. -/
def construct8Bit (st : Store) (s : List Nat) (t : TType) :
    Option (Store × StringH) :=
  match t with
  | TType.Latin1 => some (alloc st ⟨copyFromLatin1 s, 1, false⟩)
  | TType.UTF8 => some (alloc st ⟨copyFromUTF8 s, 1, false⟩)
  | _ => none

/-- Modelled from the spec (section 4.1 and section 7): construction from
a wide-character source (`wstring`, `const wchar_t *`; tstring.h lines 144
and 149) with a declared `Type`.  The UTF-16 `Type`s decode; an 8-bit-only
`Type` is a contract violation and aborts construction, modelled as
`none`. -/
def constructWide (st : Store) (s : List Nat) (t : TType) :
    Option (Store × StringH) :=
  match t with
  | TType.UTF16 => some (alloc st ⟨copyFromUTF16 s TType.UTF16, 1, false⟩)
  | TType.UTF16BE => some (alloc st ⟨copyFromUTF16 s TType.UTF16BE, 1, false⟩)
  | TType.UTF16LE => some (alloc st ⟨copyFromUTF16 s TType.UTF16LE, 1, false⟩)
  | _ => none

/-- Construction from 8-bit text with the default `Type` Latin1 (the
`String(const char *s, Type t = Latin1)` constructor): always succeeds and
yields a non-null string. -/
def mkFromLatin1 (st : Store) (s : List Nat) : Store × StringH :=
  alloc st ⟨copyFromLatin1 s, 1, false⟩

/-- Construction from 8-bit text declared UTF8. -/
def mkFromUTF8 (st : Store) (s : List Nat) : Store × StringH :=
  alloc st ⟨copyFromUTF8 s, 1, false⟩

/-! ## Search, split, numeric parse (spec section 4.3) -/

/-- The pattern `pat` occurs in `data` starting at position `i`. -/
def matchesAt (data pat : List Nat) (i : Nat) : Bool :=
  (data.drop i).take pat.length == pat

/-- First occurrence of `pat` in `data` at or after `offset`, if any. -/
def findIdx (data pat : List Nat) (offset : Nat) : Option Nat :=
  (List.range (data.length + 1)).find?
    (fun i => decide (offset ≤ i) && matchesAt data pat i)

/-- Last occurrence of `pat` in `data` at or before `offset`, if any. -/
def rfindIdx (data pat : List Nat) (offset : Nat) : Option Nat :=
  ((List.range (data.length + 1)).filter
    (fun i => decide (i ≤ offset) && matchesAt data pat i)).getLast?

/-- Modelled from the spec (`String::npos`, tstring.h line 480, defined in
the missing tstring.cpp): the reserved "not found" / "until the end"
sentinel, the maximal `size_t` value. -/
def npos : Nat := 2 ^ 64 - 1

/-- Modelled from the spec (section 4.3, `find(pattern, offset)`; declared
tstring.h line 241, body missing): code-unit-wise forward substring
search; `npos` when no match exists. -/
def findStr (st : Store) (s pat : StringH) (offset : Nat) : Nat :=
  match findIdx (contentOf st s) (contentOf st pat) offset with
  | some i => i
  | none => npos

/-- Modelled from the spec (section 4.3, `rfind(pattern, offset)`;
declared tstring.h line 248, body missing): backward search from `offset`
(default `npos`, i.e. from the end); `npos` when no match exists. -/
def rfindStr (st : Store) (s pat : StringH) (offset : Nat) : Nat :=
  match rfindIdx (contentOf st s) (contentOf st pat) offset with
  | some i => i
  | none => npos

/-- Fuel-driven split scan: take the field before the first separator
occurrence, continue after it (spec section 4.3: "scans left to right,
splitting on each non-overlapping occurrence").  The fuel only bounds the
recursion; `data.length + 1` steps always suffice for a non-empty
separator. -/
def splitGo (sep : List Nat) : Nat → List Nat → List (List Nat)
  | 0, data => [data]
  | fuel + 1, data =>
    match findIdx data sep 0 with
    | none => [data]
    | some i => data.take i :: splitGo sep fuel (data.drop (i + sep.length))

/-- Modelled from the spec (section 4.3, `split(separator)`; declared
tstring.h line 253, body missing): the ordered list of fields between
separator occurrences, preserving empty fields.  An empty separator
splits nothing. -/
def splitString (sep data : List Nat) : List (List Nat) :=
  if sep.isEmpty then [data] else splitGo sep (data.length + 1) data

/-- `split` on handles: the code-unit sequences of the returned
`StringList`'s elements, in order. -/
def splitStr (st : Store) (s sep : StringH) : List (List Nat) :=
  splitString (contentOf st sep) (contentOf st s)

/-- An ASCII decimal digit code unit. -/
def isDigitU (u : Nat) : Bool :=
  decide (0x30 ≤ u) && decide (u ≤ 0x39)

/-- Decimal value of a digit-code-unit run. -/
def digitsVal (ds : List Nat) : Nat :=
  ds.foldl (fun a u => a * 10 + (u - 0x30)) 0

/-- Modelled from the spec (section 4.3, `toInt(&ok)`; declared tstring.h
line 319, body missing): parse a leading run of ASCII decimal digits with
an optional leading minus sign into a signed integer; the second component
is the out-of-band success flag, false when no digit was parsed (the
numeric component is then unspecified; the model returns 0). -/
def toIntM (s : List Nat) : Int × Bool :=
  let neg := s.head? = some 0x2D
  let body := if neg then s.tail else s
  let ds := body.takeWhile isDigitU
  if ds.isEmpty then (0, false)
  else ((if neg then -1 else 1) * (digitsVal ds : Int), true)

/-- `toInt` on a handle. -/
def toIntStr (st : Store) (s : StringH) : Int × Bool :=
  toIntM (contentOf st s)

/-! ## Theorems -/

/-- C4: the default-constructed `String()` is empty and null; a `String`
constructed from the empty text `""` is empty but not null; both have
length zero, and strings constructed from text (Latin1 or UTF8, any
content) never report `isNull`. -/
theorem null_vs_empty :
    (∀ st, isEmptyStr (mkEmpty st).1 (mkEmpty st).2 = true ∧
      isNullStr (mkEmpty st).1 (mkEmpty st).2 = true ∧
      lengthStr (mkEmpty st).1 (mkEmpty st).2 = 0) ∧
    (∀ st, isEmptyStr (mkFromLatin1 st []).1 (mkFromLatin1 st []).2 = true ∧
      isNullStr (mkFromLatin1 st []).1 (mkFromLatin1 st []).2 = false ∧
      lengthStr (mkFromLatin1 st []).1 (mkFromLatin1 st []).2 = 0) ∧
    (∀ st s, isNullStr (mkFromLatin1 st s).1 (mkFromLatin1 st s).2 = false ∧
      isNullStr (mkFromUTF8 st s).1 (mkFromUTF8 st s).2 = false) := by
  refine ⟨fun st => ?_, fun st => ?_, fun st s => ?_⟩ <;>
    simp [mkEmpty, mkFromLatin1, mkFromUTF8, alloc, isEmptyStr, isNullStr,
      lengthStr, contentOf, getBuf, copyFromLatin1]

/-- C6: constructing from an 8-bit source with a 16-bit-only `Type`
(UTF16, UTF16BE, UTF16LE) aborts construction instead of reinterpreting
the bytes, and likewise a wide-character source with an 8-bit-only `Type`
(Latin1, UTF8); the matching pairings all construct successfully. -/
theorem encoding_width_contract :
    ∀ st s,
      construct8Bit st s TType.UTF16 = none ∧
      construct8Bit st s TType.UTF16BE = none ∧
      construct8Bit st s TType.UTF16LE = none ∧
      constructWide st s TType.Latin1 = none ∧
      constructWide st s TType.UTF8 = none ∧
      (construct8Bit st s TType.Latin1).isSome = true ∧
      (construct8Bit st s TType.UTF8).isSome = true ∧
      (constructWide st s TType.UTF16).isSome = true ∧
      (constructWide st s TType.UTF16BE).isSome = true ∧
      (constructWide st s TType.UTF16LE).isSome = true :=
  fun _ _ => ⟨rfl, rfl, rfl, rfl, rfl, rfl, rfl, rfl, rfl, rfl⟩

/-- C5: `String("a,b,,c").split(",")` (Latin-1 codes 97 44 98 44 44 99 and
44) yields exactly the four fields `["a","b","","c"]`, preserving the
empty field between the consecutive separators, and
`String("abc").split(",")` with the separator absent yields `["abc"]`. -/
theorem split_semantics :
    splitStr (mkFromLatin1 (mkFromLatin1 emptyStore [97, 44, 98, 44, 44, 99]).1 [44]).1
      (mkFromLatin1 emptyStore [97, 44, 98, 44, 44, 99]).2
      (mkFromLatin1 (mkFromLatin1 emptyStore [97, 44, 98, 44, 44, 99]).1 [44]).2
      = [[97], [98], [], [99]] ∧
    splitStr (mkFromLatin1 (mkFromLatin1 emptyStore [97, 98, 99]).1 [44]).1
      (mkFromLatin1 emptyStore [97, 98, 99]).2
      (mkFromLatin1 (mkFromLatin1 emptyStore [97, 98, 99]).1 [44]).2
      = [[97, 98, 99]] := by
  exact ⟨by decide, by decide⟩

/-- C2: copying a `String` is shallow — the copy shares the same buffer
id, the source buffer's share count goes up by one, no buffer is
allocated, no character data is copied, and the copy compares equal to
the source. -/
theorem copy_shallow_no_alloc :
    ∀ st s,
      (copyString st s).2.bufId = s.bufId ∧
      (copyString st s).1.next = st.next ∧
      (getBuf (copyString st s).1 s).refs = (getBuf st s).refs + 1 ∧
      (getBuf (copyString st s).1 s).data = (getBuf st s).data ∧
      contentOf (copyString st s).1 (copyString st s).2 = contentOf st s ∧
      stringEq (copyString st s).1 (copyString st s).2 s = true := by
  intro st s
  simp [copyString, setBuf, getBuf, contentOf, stringEq]

/-- C10: `length()` and `size()` agree on every `String` (null and empty
included) and report the number of UTF-16 code units of the internal
sequence; a scalar sequence occupies one unit per BMP scalar and two
(a surrogate pair) per supplementary scalar. -/
theorem size_eq_length :
    (∀ st s, lengthStr st s = sizeStr st s ∧
      sizeStr st s = (contentOf st s).length) ∧
    (∀ cs, (scalarsToUTF16 cs).length
      = (cs.map (fun c => if c < 0x10000 then 1 else 2)).sum) := by
  refine ⟨fun st s => ⟨rfl, rfl⟩, fun cs => ?_⟩
  induction cs with
  | nil => rfl
  | cons c cs ih =>
    simp only [scalarsToUTF16, List.length_append, List.map_cons,
      List.sum_cons, ih, scalarToUTF16]
    by_cases h : c < 0x10000 <;> simp [h]

/-- C1: after `T` is copy-constructed or copy-assigned from `S` (so both
share one buffer), a mutating `append` on `T` first detaches `T` onto a
privately owned buffer (share count 1, a different buffer id than `S`'s)
and leaves `S`'s observed content and length unchanged; `T` ends with the
old content followed by the appended units. -/
theorem detach_isolation (st : Store) (s u : StringH)
    (hs : s.bufId < st.next) (hr : 1 ≤ (getBuf st s).refs) :
    contentOf (appendStr (copyString st s).1 (copyString st s).2 u).1 s
      = contentOf st s ∧
    lengthStr (appendStr (copyString st s).1 (copyString st s).2 u).1 s
      = lengthStr st s ∧
    (getBuf (appendStr (copyString st s).1 (copyString st s).2 u).1
      (appendStr (copyString st s).1 (copyString st s).2 u).2).refs = 1 ∧
    (appendStr (copyString st s).1 (copyString st s).2 u).2.bufId ≠ s.bufId ∧
    contentOf (appendStr (copyString st s).1 (copyString st s).2 u).1
      (appendStr (copyString st s).1 (copyString st s).2 u).2
      = contentOf st s ++ contentOf (copyString st s).1 u := by
  have hne : s.bufId ≠ st.next := by omega
  have hz : (st.bufs s.bufId).refs ≠ 0 := by
    simp only [getBuf] at hr; omega
  simp only [appendStr, detach, copyString, contentOf, getBuf, setBuf,
    alloc, lengthStr]
  simp [hz, hne, Ne.symm hne]

/-- Latin-1 export preserves length. -/
theorem encodeLatin1_length : ∀ S : List Nat, (encodeLatin1 S).length = S.length
  | [] => rfl
  | _ :: us => by simp [encodeLatin1, encodeLatin1_length us]

/-- Latin-1 export pointwise: units up to 0xFF pass through, the rest
become the replacement byte 0x3F. -/
theorem encodeLatin1_getD :
    ∀ (S : List Nat) (i : Nat), i < S.length →
      (encodeLatin1 S).getD i 0
        = (if S.getD i 0 ≤ 0xFF then S.getD i 0 else 0x3F)
  | u :: us, 0, _ => by simp [encodeLatin1]
  | u :: us, i + 1, hi => by
    simpa [encodeLatin1] using encodeLatin1_getD us i (by simpa using hi)

/-- C7: Latin-1 export (`to8Bit(false)` / `toCString(false)`) is total on
every `String`: the output has one byte per code unit; each unit in
0–0xFF is emitted as itself and each unit above 0xFF becomes the single
fixed replacement byte 0x3F. -/
theorem latin1_export_total (st : Store) (s : StringH) (i : Nat)
    (hi : i < lengthStr st s) :
    (to8Bit st s false).length = lengthStr st s ∧
    (to8Bit st s false).getD i 0
      = (if (contentOf st s).getD i 0 ≤ 0xFF
          then (contentOf st s).getD i 0 else 0x3F) := by
  refine ⟨?_, ?_⟩
  · simpa [to8Bit, to8BitData] using encodeLatin1_length (contentOf st s)
  · simpa [to8Bit, to8BitData] using encodeLatin1_getD (contentOf st s) i hi

/-- Witness for C7 at the concrete string [0x41, 0x2603] (a letter and a
unit above 0xFF) and index 1. -/
theorem latin1_export_total_witness :
    (1 < lengthStr (mkFromUTF8 emptyStore [0x41, 0xE2, 0x98, 0x83]).1
        (mkFromUTF8 emptyStore [0x41, 0xE2, 0x98, 0x83]).2) ∧
    ((to8Bit (mkFromUTF8 emptyStore [0x41, 0xE2, 0x98, 0x83]).1
        (mkFromUTF8 emptyStore [0x41, 0xE2, 0x98, 0x83]).2 false).length
      = lengthStr (mkFromUTF8 emptyStore [0x41, 0xE2, 0x98, 0x83]).1
          (mkFromUTF8 emptyStore [0x41, 0xE2, 0x98, 0x83]).2 ∧
     (to8Bit (mkFromUTF8 emptyStore [0x41, 0xE2, 0x98, 0x83]).1
        (mkFromUTF8 emptyStore [0x41, 0xE2, 0x98, 0x83]).2 false).getD 1 0
      = (if (contentOf (mkFromUTF8 emptyStore [0x41, 0xE2, 0x98, 0x83]).1
              (mkFromUTF8 emptyStore [0x41, 0xE2, 0x98, 0x83]).2).getD 1 0 ≤ 0xFF
          then (contentOf (mkFromUTF8 emptyStore [0x41, 0xE2, 0x98, 0x83]).1
              (mkFromUTF8 emptyStore [0x41, 0xE2, 0x98, 0x83]).2).getD 1 0
          else 0x3F)) :=
  ⟨by decide,
   latin1_export_total (mkFromUTF8 emptyStore [0x41, 0xE2, 0x98, 0x83]).1
     (mkFromUTF8 emptyStore [0x41, 0xE2, 0x98, 0x83]).2 1 (by decide)⟩

/-- `takeWhile` collects exactly an all-true run that stops at the first
element of the remainder. -/
theorem takeWhile_all_append (p : Nat → Bool) :
    ∀ ds rest : List Nat, (∀ u ∈ ds, p u = true) →
      (∀ u, rest.head? = some u → p u = false) →
      (ds ++ rest).takeWhile p = ds := by
  intro ds
  induction ds with
  | nil =>
    intro rest _ hrest
    cases rest with
    | nil => rfl
    | cons r rs => simp [List.takeWhile_cons, hrest r rfl]
  | cons d ds ih =>
    intro rest hds hrest
    have hd : p d = true := hds d (by simp)
    simp [List.takeWhile_cons, hd, ih rest (fun u hu => hds u (by simp [hu])) hrest]

/-- C8: `toInt` never fails the call — it parses a leading run of ASCII
decimal digits (with an optional leading minus) and reports success only
through the out-of-band flag: any nonempty all-digit run followed by a
non-digit remainder parses to its decimal value with the flag true (and
to its negation under a leading minus), `String("42")` gives 42 with the
flag true, and `String("abc")` gives the flag false. -/
theorem toInt_out_of_band
    (ds rest : List Nat) (hne : ds ≠ [])
    (hds : ∀ u ∈ ds, isDigitU u = true)
    (hrest : ∀ u, rest.head? = some u → isDigitU u = false) :
    toIntM (ds ++ rest) = ((digitsVal ds : Int), true) ∧
    toIntM (0x2D :: (ds ++ rest)) = (-(digitsVal ds : Int), true) ∧
    toIntStr (mkFromLatin1 emptyStore [0x34, 0x32]).1
      (mkFromLatin1 emptyStore [0x34, 0x32]).2 = (42, true) ∧
    (toIntStr (mkFromLatin1 emptyStore [0x61, 0x62, 0x63]).1
      (mkFromLatin1 emptyStore [0x61, 0x62, 0x63]).2).2 = false := by
  obtain ⟨d, ds', rfl⟩ : ∃ d ds', ds = d :: ds' := by
    cases ds with
    | nil => exact absurd rfl hne
    | cons d ds' => exact ⟨d, ds', rfl⟩
  have hd : isDigitU d = true := hds d (by simp)
  have hd45 : d ≠ 0x2D := by
    simp only [isDigitU, Bool.and_eq_true, decide_eq_true_eq] at hd
    omega
  have htake : ((d :: ds') ++ rest).takeWhile isDigitU = d :: ds' :=
    takeWhile_all_append isDigitU (d :: ds') rest hds hrest
  have htake2 : List.takeWhile isDigitU (d :: (ds' ++ rest)) = d :: ds' := by
    rw [← List.cons_append]; exact htake
  refine ⟨?_, ?_, by decide, by decide⟩
  · simp [toIntM, hd45, htake2, hd]
  · simp [toIntM, htake2, hd]

/-- Decoding an empty byte sequence yields no scalars, at any fuel. -/
theorem utf8DecGo_nil : ∀ f : Nat, utf8DecGo f [] = []
  | 0 => rfl
  | _ + 1 => rfl

/-- Decoding step: an ASCII byte decodes to itself. -/
theorem utf8Dec_ascii (f b : Nat) (bs : List Nat) (h : b < 0x80) :
    utf8DecGo (f + 1) (b :: bs) = b :: utf8DecGo f bs := by
  rw [utf8DecGo.eq_def]
  dsimp only []
  rw [if_pos h]

/-- Decoding step: a two-byte lead followed by a continuation byte. -/
theorem utf8Dec_two (f b b1 : Nat) (bs : List Nat)
    (h1 : 0xC2 ≤ b) (h2 : b < 0xE0) (hc : isCont b1 = true) :
    utf8DecGo (f + 1) (b :: b1 :: bs)
      = ((b - 0xC0) * 0x40 + (b1 - 0x80)) :: utf8DecGo f bs := by
  rw [utf8DecGo.eq_def]
  dsimp only []
  rw [if_neg (by omega), if_neg (by omega), if_pos h2]
  rw [if_pos hc]

/-- Decoding step: a three-byte lead followed by two continuations. -/
theorem utf8Dec_three (f b b1 b2 : Nat) (bs : List Nat)
    (h1 : 0xE0 ≤ b) (h2 : b < 0xF0)
    (hc1 : isCont b1 = true) (hc2 : isCont b2 = true) :
    utf8DecGo (f + 1) (b :: b1 :: b2 :: bs)
      = ((b - 0xE0) * 0x1000 + (b1 - 0x80) * 0x40 + (b2 - 0x80))
          :: utf8DecGo f bs := by
  rw [utf8DecGo.eq_def]
  dsimp only []
  rw [if_neg (by omega), if_neg (by omega), if_neg (by omega), if_pos h2]
  rw [if_pos (by simp [hc1, hc2])]

/-- Decoding step: a four-byte lead followed by three continuations. -/
theorem utf8Dec_four (f b b1 b2 b3 : Nat) (bs : List Nat)
    (h1 : 0xF0 ≤ b) (h2 : b < 0xF5)
    (hc1 : isCont b1 = true) (hc2 : isCont b2 = true) (hc3 : isCont b3 = true) :
    utf8DecGo (f + 1) (b :: b1 :: b2 :: b3 :: bs)
      = ((b - 0xF0) * 0x40000 + (b1 - 0x80) * 0x1000
          + (b2 - 0x80) * 0x40 + (b3 - 0x80)) :: utf8DecGo f bs := by
  rw [utf8DecGo.eq_def]
  dsimp only []
  rw [if_neg (by omega), if_neg (by omega), if_neg (by omega),
    if_neg (by omega), if_pos h2]
  rw [if_pos (by simp [hc1, hc2, hc3])]

/-- Every scalar encodes to at least one byte. -/
theorem utf8Enc_len_pos (c : Nat) : 1 ≤ (utf8EncodeScalar c).length := by
  unfold utf8EncodeScalar
  split_ifs <;> simp

/-- Decoding the encoding of one scalar recovers it in front of the
remaining bytes. -/
theorem utf8Dec_enc_cons (c : Nat) (hc : c < 0x110000) (f : Nat)
    (bs : List Nat) :
    utf8DecGo (f + 1) (utf8EncodeScalar c ++ bs) = c :: utf8DecGo f bs := by
  by_cases h1 : c < 0x80
  · simp only [utf8EncodeScalar, if_pos h1, List.cons_append, List.nil_append]
    rw [utf8Dec_ascii f c bs h1]
  · by_cases h2 : c < 0x800
    · simp only [utf8EncodeScalar, if_neg h1, if_pos h2, List.cons_append,
        List.nil_append]
      rw [utf8Dec_two f (0xC0 + c / 0x40) (0x80 + c % 0x40) bs (by omega)
        (by omega)
        (by simp only [isCont, Bool.and_eq_true, decide_eq_true_eq]; omega)]
      rw [show (0xC0 + c / 0x40 - 0xC0) * 0x40 + (0x80 + c % 0x40 - 0x80) = c
        from by omega]
    · by_cases h3 : c < 0x10000
      · simp only [utf8EncodeScalar, if_neg h1, if_neg h2, if_pos h3,
          List.cons_append, List.nil_append]
        rw [utf8Dec_three f (0xE0 + c / 0x1000) (0x80 + (c / 0x40) % 0x40)
          (0x80 + c % 0x40) bs (by omega) (by omega)
          (by simp only [isCont, Bool.and_eq_true, decide_eq_true_eq]; omega)
          (by simp only [isCont, Bool.and_eq_true, decide_eq_true_eq]; omega)]
        rw [show (0xE0 + c / 0x1000 - 0xE0) * 0x1000
            + (0x80 + (c / 0x40) % 0x40 - 0x80) * 0x40
            + (0x80 + c % 0x40 - 0x80) = c from by omega]
      · simp only [utf8EncodeScalar, if_neg h1, if_neg h2, if_neg h3,
          List.cons_append, List.nil_append]
        rw [utf8Dec_four f (0xF0 + c / 0x40000) (0x80 + (c / 0x1000) % 0x40)
          (0x80 + (c / 0x40) % 0x40) (0x80 + c % 0x40) bs (by omega)
          (by omega)
          (by simp only [isCont, Bool.and_eq_true, decide_eq_true_eq]; omega)
          (by simp only [isCont, Bool.and_eq_true, decide_eq_true_eq]; omega)
          (by simp only [isCont, Bool.and_eq_true, decide_eq_true_eq]; omega)]
        rw [show (0xF0 + c / 0x40000 - 0xF0) * 0x40000
            + (0x80 + (c / 0x1000) % 0x40 - 0x80) * 0x1000
            + (0x80 + (c / 0x40) % 0x40 - 0x80) * 0x40
            + (0x80 + c % 0x40 - 0x80) = c from by omega]

/-- Decoding the encoding of a scalar sequence recovers it, with any
sufficient fuel. -/
theorem utf8_roundtrip_aux :
    ∀ cs : List Nat, (∀ c ∈ cs, c < 0x110000) →
      ∀ f : Nat, (scalarsToUTF8 cs).length ≤ f →
        utf8DecGo f (scalarsToUTF8 cs) = cs
  | [], _, f, _ => utf8DecGo_nil f
  | c :: cs, h, f, hf => by
    have hpos := utf8Enc_len_pos c
    simp only [scalarsToUTF8, List.length_append] at hf
    cases f with
    | zero => omega
    | succ f =>
      simp only [scalarsToUTF8]
      rw [utf8Dec_enc_cons c (h c (by simp)) f (scalarsToUTF8 cs)]
      rw [utf8_roundtrip_aux cs (fun x hx => h x (by simp [hx])) f (by omega)]

/-- Decoding the encoding of a sequence of scalars recovers it. -/
theorem utf8_roundtrip_scalars (cs : List Nat)
    (h : ∀ c ∈ cs, c < 0x110000) :
    utf8DecScalars (scalarsToUTF8 cs) = cs :=
  utf8_roundtrip_aux cs h (scalarsToUTF8 cs).length le_rfl

set_option maxRecDepth 4000 in
/-- On well-formed UTF-16, reading scalars and writing them back is the
identity, and every scalar obtained is in the Unicode range. -/
theorem wf_utf16_stage :
    ∀ S : List Nat, wfUTF16 S = true →
      (∀ c ∈ utf16ToScalars S, c < 0x110000) ∧
      scalarsToUTF16 (utf16ToScalars S) = S
  | [], _ => ⟨by simp [utf16ToScalars], rfl⟩
  | [u], h => by
    have h' : (u < 0x10000 ∧ isHighSurrogate u = false)
        ∧ isLowSurrogate u = false := by
      simpa [wfUTF16] using h
    constructor
    · intro c hc
      simp [utf16ToScalars, h'.1.2, h'.2] at hc
      subst hc
      have := h'.1.1
      omega
    · simp [utf16ToScalars, h'.1.2, h'.2, scalarsToUTF16, scalarToUTF16, h'.1.1]
  | u :: v :: rest, h => by
    by_cases hu : isHighSurrogate u = true
    · have h' : isLowSurrogate v = true ∧ wfUTF16 rest = true := by
        simpa [wfUTF16, hu] using h
      obtain ⟨ih1, ih2⟩ := wf_utf16_stage rest h'.2
      have hub : 0xD800 ≤ u ∧ u ≤ 0xDBFF := by
        simpa [isHighSurrogate] using hu
      have hvb : 0xDC00 ≤ v ∧ v ≤ 0xDFFF := by
        simpa [isLowSurrogate] using h'.1
      simp only [utf16ToScalars, hu, h'.1, if_true]
      constructor
      · intro c hc
        rw [List.mem_cons] at hc
        cases hc with
        | inl h0 => omega
        | inr h0 => exact ih1 c h0
      · simp only [scalarsToUTF16, scalarToUTF16, ih2]
        rw [if_neg (by omega)]
        rw [show 0xD800 + (0x10000 + (u - 0xD800) * 0x400 + (v - 0xDC00)
            - 0x10000) / 0x400 = u from by omega]
        rw [show 0xDC00 + (0x10000 + (u - 0xD800) * 0x400 + (v - 0xDC00)
            - 0x10000) % 0x400 = v from by omega]
        rfl
    · have h' : (u < 0x10000 ∧ isLowSurrogate u = false)
          ∧ wfUTF16 (v :: rest) = true := by
        simpa [wfUTF16, hu] using h
      obtain ⟨ih1, ih2⟩ := wf_utf16_stage (v :: rest) h'.2
      simp only [utf16ToScalars, hu, h'.1.2, Bool.false_eq_true, if_false]
      constructor
      · intro c hc
        rw [List.mem_cons] at hc
        cases hc with
        | inl h0 =>
          have := h'.1.1
          omega
        | inr h0 => exact ih1 c h0
      · simp only [scalarsToUTF16, scalarToUTF16, if_pos h'.1.1, ih2]
        rfl

/-- Latin-1 round-trip: decoding the Latin-1 export of a string whose
units all fit in a byte recovers the string. -/
theorem latin1_roundtrip :
    ∀ T : List Nat, (∀ u ∈ T, u ≤ 0xFF) →
      copyFromLatin1 (encodeLatin1 T) = T
  | [], _ => rfl
  | u :: us, h => by
    have hu : u ≤ 0xFF := h u (by simp)
    have ih := latin1_roundtrip us (fun x hx => h x (by simp [hx]))
    simp only [copyFromLatin1] at ih
    simp only [encodeLatin1, if_pos hu, copyFromLatin1, List.map_cons, ih,
      Nat.mod_eq_of_lt (show u < 0x100 by omega)]

/-- Latin-1 export loses information as soon as one unit is above 0xFF:
the round trip cannot restore the original. -/
theorem latin1_not_roundtrip :
    ∀ (V : List Nat) (v : Nat), v ∈ V → 0xFF < v →
      copyFromLatin1 (encodeLatin1 V) ≠ V
  | [], v, hv, _ => absurd hv (List.not_mem_nil v)
  | u :: us, v, hv, hv2 => by
    simp only [encodeLatin1, copyFromLatin1, List.map_cons]
    intro heq
    injection heq with hh ht
    rcases List.mem_cons.mp hv with rfl | hv'
    · rw [if_neg (by omega)] at hh
      omega
    · exact latin1_not_roundtrip us v hv' hv2
        (by simpa [copyFromLatin1] using ht)

/-- C3: decoding the encoding is the identity for every sequence
representable without loss — UTF-8 round-trips every well-formed UTF-16
sequence (surrogate pairs included), Latin-1 round-trips exactly the
sequences whose units all lie in 0–0xFF, and fails on any sequence
containing a unit above 0xFF. -/
theorem encoding_roundtrip (S T V : List Nat) (v : Nat)
    (hS : wfUTF16 S = true) (hT : ∀ u ∈ T, u ≤ 0xFF)
    (hv : v ∈ V) (hv2 : 0xFF < v) :
    copyFromUTF8 (to8BitData S true) = S ∧
    copyFromLatin1 (to8BitData T false) = T ∧
    copyFromLatin1 (to8BitData V false) ≠ V := by
  obtain ⟨h1, h2⟩ := wf_utf16_stage S hS
  refine ⟨?_, ?_, ?_⟩
  · have h3 := utf8_roundtrip_scalars (utf16ToScalars S) h1
    simp [to8BitData, copyFromUTF8, encodeUTF8, h3, h2]
  · simpa [to8BitData] using latin1_roundtrip T hT
  · simpa [to8BitData] using latin1_not_roundtrip V v hv hv2

/-- Witness for C3: the UTF-16 sequence [0x41, 0xD83D, 0xDE00] (a letter
and a surrogate pair) round-trips through UTF-8; [0x41, 0xFF] round-trips
through Latin-1; [0x100] does not round-trip through Latin-1. -/
theorem encoding_roundtrip_witness :
    copyFromUTF8 (to8BitData [0x41, 0xD83D, 0xDE00] true)
      = [0x41, 0xD83D, 0xDE00] ∧
    copyFromLatin1 (to8BitData [0x41, 0xFF] false) = [0x41, 0xFF] ∧
    copyFromLatin1 (to8BitData [0x100] false) ≠ [0x100] :=
  encoding_roundtrip [0x41, 0xD83D, 0xDE00] [0x41, 0xFF] [0x100] 0x100
    (by decide) (by decide) (by decide) (by decide)

/-- C9: when the pattern occurs nowhere at or after `offset`, `find`
returns the reserved sentinel `npos` (symmetrically `rfind` for nowhere
at or before its offset), and `npos` is distinct from every valid
code-unit index of the string, 0 included. -/
theorem search_sentinel (st : Store) (s pat : StringH) (offset roffset : Nat)
    (hf : ∀ i, offset ≤ i → i ≤ lengthStr st s →
      matchesAt (contentOf st s) (contentOf st pat) i = false)
    (hrf : ∀ i, i ≤ roffset → i ≤ lengthStr st s →
      matchesAt (contentOf st s) (contentOf st pat) i = false)
    (hlen : lengthStr st s < npos) :
    findStr st s pat offset = npos ∧
    rfindStr st s pat roffset = npos ∧
    ∀ i, i < lengthStr st s → i ≠ npos := by
  refine ⟨?_, ?_, fun i hi => by omega⟩
  · have hnone : findIdx (contentOf st s) (contentOf st pat) offset = none := by
      unfold findIdx
      apply List.find?_eq_none.mpr
      intro x hx
      simp only [List.mem_range] at hx
      simp only [Bool.and_eq_true, decide_eq_true_eq, not_and]
      intro hox
      simp [hf x hox (by simp only [lengthStr]; omega)]
    simp [findStr, hnone]
  · have hnil : rfindIdx (contentOf st s) (contentOf st pat) roffset = none := by
      unfold rfindIdx
      rw [List.filter_eq_nil_iff.mpr ?_]
      · rfl
      · intro x hx
        simp only [List.mem_range] at hx
        simp only [Bool.and_eq_true, decide_eq_true_eq, not_and]
        intro hox
        simp [hrf x hox (by simp only [lengthStr]; omega)]
    simp [rfindStr, hnil]

/-- Witness for C9: searching for "a" (code 97) in "b" (code 98), forward
from 0 and backward from 0, yields `npos`, and `npos` is no valid index. -/
theorem search_sentinel_witness :
    findStr (mkFromLatin1 (mkFromLatin1 emptyStore [98]).1 [97]).1
      (mkFromLatin1 emptyStore [98]).2
      (mkFromLatin1 (mkFromLatin1 emptyStore [98]).1 [97]).2 0 = npos ∧
    rfindStr (mkFromLatin1 (mkFromLatin1 emptyStore [98]).1 [97]).1
      (mkFromLatin1 emptyStore [98]).2
      (mkFromLatin1 (mkFromLatin1 emptyStore [98]).1 [97]).2 0 = npos ∧
    ∀ i, i < lengthStr (mkFromLatin1 (mkFromLatin1 emptyStore [98]).1 [97]).1
      (mkFromLatin1 emptyStore [98]).2 → i ≠ npos :=
  search_sentinel (mkFromLatin1 (mkFromLatin1 emptyStore [98]).1 [97]).1
    (mkFromLatin1 emptyStore [98]).2
    (mkFromLatin1 (mkFromLatin1 emptyStore [98]).1 [97]).2 0 0
    (fun i _ hi => by
      match i, hi with
      | 0, _ => decide
      | 1, _ => decide)
    (fun i _ hi => by
      match i, hi with
      | 0, _ => decide
      | 1, _ => decide)
    (by decide)

/-- Witness for C1: with S = "a" (code 97) freshly constructed and
T = S, appending S to T leaves S's content [97], detaches T onto an
exclusively owned distinct buffer, and T ends with [97, 97]. -/
theorem detach_isolation_witness :
    contentOf (appendStr (copyString (mkFromLatin1 emptyStore [97]).1
        (mkFromLatin1 emptyStore [97]).2).1
      (copyString (mkFromLatin1 emptyStore [97]).1
        (mkFromLatin1 emptyStore [97]).2).2
      (mkFromLatin1 emptyStore [97]).2).1 (mkFromLatin1 emptyStore [97]).2
      = contentOf (mkFromLatin1 emptyStore [97]).1
          (mkFromLatin1 emptyStore [97]).2 ∧
    lengthStr (appendStr (copyString (mkFromLatin1 emptyStore [97]).1
        (mkFromLatin1 emptyStore [97]).2).1
      (copyString (mkFromLatin1 emptyStore [97]).1
        (mkFromLatin1 emptyStore [97]).2).2
      (mkFromLatin1 emptyStore [97]).2).1 (mkFromLatin1 emptyStore [97]).2
      = lengthStr (mkFromLatin1 emptyStore [97]).1
          (mkFromLatin1 emptyStore [97]).2 ∧
    (getBuf (appendStr (copyString (mkFromLatin1 emptyStore [97]).1
        (mkFromLatin1 emptyStore [97]).2).1
      (copyString (mkFromLatin1 emptyStore [97]).1
        (mkFromLatin1 emptyStore [97]).2).2
      (mkFromLatin1 emptyStore [97]).2).1
      (appendStr (copyString (mkFromLatin1 emptyStore [97]).1
        (mkFromLatin1 emptyStore [97]).2).1
      (copyString (mkFromLatin1 emptyStore [97]).1
        (mkFromLatin1 emptyStore [97]).2).2
      (mkFromLatin1 emptyStore [97]).2).2).refs = 1 ∧
    (appendStr (copyString (mkFromLatin1 emptyStore [97]).1
        (mkFromLatin1 emptyStore [97]).2).1
      (copyString (mkFromLatin1 emptyStore [97]).1
        (mkFromLatin1 emptyStore [97]).2).2
      (mkFromLatin1 emptyStore [97]).2).2.bufId
      ≠ (mkFromLatin1 emptyStore [97]).2.bufId ∧
    contentOf (appendStr (copyString (mkFromLatin1 emptyStore [97]).1
        (mkFromLatin1 emptyStore [97]).2).1
      (copyString (mkFromLatin1 emptyStore [97]).1
        (mkFromLatin1 emptyStore [97]).2).2
      (mkFromLatin1 emptyStore [97]).2).1
      (appendStr (copyString (mkFromLatin1 emptyStore [97]).1
        (mkFromLatin1 emptyStore [97]).2).1
      (copyString (mkFromLatin1 emptyStore [97]).1
        (mkFromLatin1 emptyStore [97]).2).2
      (mkFromLatin1 emptyStore [97]).2).2
      = contentOf (mkFromLatin1 emptyStore [97]).1
          (mkFromLatin1 emptyStore [97]).2
        ++ contentOf (copyString (mkFromLatin1 emptyStore [97]).1
            (mkFromLatin1 emptyStore [97]).2).1
          (mkFromLatin1 emptyStore [97]).2 :=
  detach_isolation (mkFromLatin1 emptyStore [97]).1
    (mkFromLatin1 emptyStore [97]).2 (mkFromLatin1 emptyStore [97]).2
    (by decide) (by decide)

/-- Witness for C8: the digit run "7" followed by the non-digit "x"
parses to 7 with the flag true, "-7x" parses to -7 with the flag true,
"42" parses to 42 with the flag true, and "abc" sets the flag false. -/
theorem toInt_out_of_band_witness :
    toIntM ([0x37] ++ [0x78]) = ((digitsVal [0x37] : Int), true) ∧
    toIntM (0x2D :: ([0x37] ++ [0x78])) = (-(digitsVal [0x37] : Int), true) ∧
    toIntStr (mkFromLatin1 emptyStore [0x34, 0x32]).1
      (mkFromLatin1 emptyStore [0x34, 0x32]).2 = (42, true) ∧
    (toIntStr (mkFromLatin1 emptyStore [0x61, 0x62, 0x63]).1
      (mkFromLatin1 emptyStore [0x61, 0x62, 0x63]).2).2 = false :=
  toInt_out_of_band [0x37] [0x78] (by decide) (by decide)
    (fun u hu => by
      simp only [List.head?_cons, Option.some.injEq] at hu
      subst hu
      decide)
